import Mathlib

/-!
Shallow embedding of `scripts/render.py` (the markup-tree → OOXML document
converter of the js-loaders repository) and proofs about it.

Text is modelled as `List Char` inside the algorithms and `String` at the
data-model surface.  Python's fatal errors (raised exceptions and failed
asserts) are modelled with `Except String`.
-/

namespace Render

/-- Python's notion of whitespace for `str.split()` / `str.isspace()`
(ASCII fragment, which is all the converter ever sees). -/
def isPySpace (c : Char) : Bool :=
  c = ' ' ∨ c = '\t' ∨ c = '\n' ∨ c = '\r' ∨ c = '\x0b' ∨ c = '\x0c'

/-- Python's regex word character `\w` (patterns are compiled without
`re.UNICODE`, so this is the ASCII set). -/
def isWordChar (c : Char) : Bool :=
  ('a' ≤ c ∧ c ≤ 'z') ∨ ('A' ≤ c ∧ c ≤ 'Z') ∨ ('0' ≤ c ∧ c ≤ '9') ∨ c = '_'

/-- Python `str.split()` with no separator: the list of maximal runs of
non-whitespace characters.  (`acc` holds the current word, reversed.) -/
def pyWordsAux (acc : List Char) : List Char → List (List Char)
  | [] => if acc.isEmpty then [] else [acc.reverse]
  | c :: cs =>
    if isPySpace c then
      if acc.isEmpty then pyWordsAux [] cs else acc.reverse :: pyWordsAux [] cs
    else pyWordsAux (c :: acc) cs

def pyWords (l : List Char) : List (List Char) := pyWordsAux [] l

/-- Whitespace normalization of `make_run` (render.py lines 128-131):
`text = "[" + text + "]"; text = " ".join(text.split()); text = text[1:-1]`. -/
def normalizeSpace (l : List Char) : List Char :=
  (List.intercalate [' '] (pyWords ('[' :: (l ++ [']'])))).drop 1 |>.dropLast

/-- NOTE special case of `make_run` (render.py lines 134-135): a leading
literal "NOTE " becomes "NOTE" followed by a tab. -/
def noteFix (l : List Char) : List Char :=
  if l.take 5 = "NOTE ".toList then "NOTE\t".toList ++ l.drop 5 else l

/-- Attribute set accumulated by the inline converter (the keys of the
Python `attrs` dict: `em`, `strong`, `code`; a missing key reads as false). -/
structure Attrs where
  em : Bool := false
  strong : Bool := false
  code : Bool := false
deriving DecidableEq, Repr

/-- Setting `attrs[tag] = True` for a tag string (render.py line 180). -/
def Attrs.setTag (a : Attrs) (tag : String) : Attrs :=
  if tag = "em" then { a with em := true }
  else if tag = "strong" then { a with strong := true }
  else if tag = "code" then { a with code := true }
  else a

/-- The `Run` class (render.py lines 87-125): a piece of text together with
the three formatting flags. -/
structure Run where
  text : String
  em : Bool := false
  strong : Bool := false
  code : Bool := false
deriving DecidableEq, Repr

/-- The `make_run` function (render.py lines 127-141). -/
def makeRun (text : String) (attrs : Attrs) : Run :=
  { text := ⟨noteFix (normalizeSpace text.toList)⟩
    em := attrs.em, strong := attrs.strong, code := attrs.code }

/-- Output segments produced by `Run.to_etree` (render.py lines 108-123):
plain text, explicit line break, page break, tab. -/
inductive Seg where
  | text : String → Seg
  | br : Seg
  | pageBr : Seg
  | tab : Seg
deriving DecidableEq, Repr

/-- The parts produced by `re.split(r"([\f\n])", s)`: text chunks (possibly
empty) alternating with the captured one-character separators. -/
def splitFNAux (cur : List Char) : List Char → List (List Char)
  | [] => [cur.reverse]
  | c :: cs =>
    if c = '\n' ∨ c = '\x0c' then cur.reverse :: [c] :: splitFNAux [] cs
    else splitFNAux (c :: cur) cs

/-- Lowering of one split part by the loop in `Run.to_etree`
(render.py lines 108-123), in the branch order of the source. -/
def partToSeg (part : List Char) : Option Seg :=
  if part = ['\n'] then some .br
  else if part = ['\x0c'] then some .pageBr
  else if part = ['\t'] then some .tab
  else if part.isEmpty then none
  else some (.text ⟨part⟩)

/-- The segment sequence a `Run` is serialized to by `Run.to_etree`. -/
def runSegments (r : Run) : List Seg :=
  (splitFNAux [] r.text.toList).filterMap partToSeg

/-- An `xml.etree.ElementTree` element as the converter sees it: namespaced
tag, optional text, child elements, optional trailing tail text. -/
inductive Elem where
  | mk : String → Option String → List Elem → Option String → Elem
deriving Repr

def Elem.tag : Elem → String
  | .mk t _ _ _ => t

def Elem.text : Elem → Option String
  | .mk _ tx _ _ => tx

def Elem.children : Elem → List Elem
  | .mk _ _ cs _ => cs

def Elem.tail : Elem → Option String
  | .mk _ _ _ tl => tl

def htmlNs : String := "http://www.w3.org/1999/xhtml"

/-- The namespaced-tag brace pattern `"{" + html_ns + "}"`. -/
def nsBrace : String := "\x7bhttp://www.w3.org/1999/xhtml\x7d"

/-- The `element_tag` helper (render.py lines 143-148): strip the XHTML
namespace from a tag when present. -/
def elementTag (e : Elem) : String :=
  if e.tag.toList.take nsBrace.toList.length = nsBrace.toList then
    ⟨e.tag.toList.drop nsBrace.toList.length⟩
  else e.tag

/-- The `is_inline` helper (render.py lines 150-151). -/
def isInline (e : Elem) : Bool :=
  elementTag e = "em" ∨ elementTag e = "strong" ∨ elementTag e = "code"

/-- Runs produced for a child's tail text (render.py lines 174-175):
`if child.tail: yield make_run(child.tail, attrs)`. -/
def tailRunsOf (c : Elem) (attrs : Attrs) : List Run :=
  match c.tail with
  | some t => if t = "" then [] else [makeRun t attrs]
  | none => []

/-- Runs produced for an element's own leading text (render.py lines
169-170): `if e.text: yield make_run(e.text, attrs)`. -/
def textRunsOf (tx : Option String) (attrs : Attrs) : List Run :=
  match tx with
  | some t => if t = "" then [] else [makeRun t attrs]
  | none => []

mutual

/-- The `convert_inline` generator (render.py lines 177-184): only `em`,
`strong` and `code` elements are accepted; the matching attribute is set and
the element's content (its own text plus the child loop of
`content_of_element_to_runs`) is lowered under the extended attribute set. -/
def convertInline (e : Elem) (attrs : Attrs) : Except String (List Run) :=
  match e with
  | .mk tg tx cs tl =>
    let t := elementTag (.mk tg tx cs tl)
    if t = "em" ∨ t = "strong" ∨ t = "code" then do
      let rest ← childRunsLoop cs (attrs.setTag t)
      .ok (textRunsOf tx (attrs.setTag t) ++ rest)
    else .error ("unrecognized tag: <" ++ t ++ ">")

/-- The child loop of `content_of_element_to_runs` (render.py lines
171-175): each child's inline conversion — note the source calls
`convert_inline(child)` with NO attributes, so the enclosing attribute set
is dropped at the recursion — followed by a run for the child's tail text
under the enclosing attributes. -/
def childRunsLoop (cs : List Elem) (attrs : Attrs) :
    Except String (List Run) :=
  match cs with
  | [] => .ok []
  | c :: rest => do
    let childRuns ← convertInline c {}
    let restRuns ← childRunsLoop rest attrs
    .ok (childRuns ++ tailRunsOf c attrs ++ restRuns)

end

/-- The `content_of_element_to_runs` generator (render.py lines 168-175) on
an element: a run for the element's own text, then the child loop. -/
def contentToRuns (e : Elem) (attrs : Attrs) : Except String (List Run) := do
  let rest ← childRunsLoop e.children attrs
  .ok (textRunsOf e.text attrs ++ rest)

/-- The `Paragraph` class (render.py lines 59-85): runs plus optional
paragraph style and optional numbering reference. -/
structure Paragraph where
  runs : List Run
  pStyle : Option String := none
  numId : Option Nat := none
  ilvl : Option Nat := none
deriving DecidableEq, Repr

/-- Whether `Paragraph.to_etree` (render.py lines 67-85) emits a `numPr`
numbering reference for the paragraph: it does iff `numId` is set. -/
def paraHasNumPr (p : Paragraph) : Bool :=
  p.numId.isSome

/-- The `content_to_para` function (render.py lines 186-191).  Note the
source accepts a `preserve_space` argument and never uses it, so this model
keeps (and ignores) it too. -/
def contentToPara (e : Elem) (preserveSpace : Bool) (pStyle : Option String) :
    Except String Paragraph :=
  match contentToRuns e {} with
  | .error s => .error s
  | .ok content =>
    let noteStart : Bool :=
      match content with
      | r :: _ => r.text.toList.take 5 = "NOTE\t".toList
      | [] => false
    let style := if pStyle = none ∧ noteStart then some "Note" else pStyle
    .ok { runs := content, pStyle := style }

/-- The child loop of `content_of_li_element_to_runs_and_blocks`
(render.py lines 153-166): inline children extend the run sequence (with
their tail text under the enclosing attributes); any other child is
collected as a block, and an inline child appearing after a block child
fails the `assert len(blocks) == 0`. -/
def liLoop (cs : List Elem) (runs : List Run) (blocks : List Elem)
    (attrs : Attrs) : Except String (List Run × List Elem) :=
  match cs with
  | [] => .ok (runs, blocks)
  | c :: rest =>
    if isInline c then
      if blocks.isEmpty then
        match convertInline c {} with
        | .error s => .error s
        | .ok childRuns =>
          liLoop rest (runs ++ childRuns ++ tailRunsOf c attrs) blocks attrs
      else .error "assertion failed: inline child after block child in a list item"
    else liLoop rest runs (blocks ++ [c]) attrs

/-- The `content_of_li_element_to_runs_and_blocks` function
(render.py lines 153-166). -/
def contentOfLi (e : Elem) (attrs : Attrs) :
    Except String (List Run × List Elem) :=
  liLoop e.children (textRunsOf e.text attrs) [] attrs

/-- The tail assertion of `convert_li` (render.py line 195):
`assert e.tail is None or e.tail.isspace()` (Python `"".isspace()` is
false, so an empty tail string fails the assertion). -/
def liTailOk (e : Elem) : Bool :=
  match e.tail with
  | none => true
  | some t => ¬ t.isEmpty ∧ t.toList.all isPySpace

/-- The tail check of `convert_block` (render.py lines 207-208):
`if e.tail and e.tail.strip(): raise ...`. -/
def tailBad (e : Elem) : Bool :=
  match e.tail with
  | some t => t.toList.any (fun c => ¬ isPySpace c)
  | none => false

/-- Python `str.replace` for a one-character pattern (used in
render.py line 213 as `tag.replace('h', 'Heading')` on a heading tag). -/
def pyReplace (s : String) (c : String) (repl : String) : String :=
  ⟨s.toList.flatMap (fun d => if [d] = c.toList then repl.toList else [d])⟩

/-- The mutable allocator state of `html_to_ooxml` (render.py lines
203-205): the two counters `next_numId` and `next_abstractNumId` plus the
accumulated `num_pairs` list. -/
structure AllocState where
  nextNumId : Nat
  nextAbstractNumId : Nat
  numPairs : List (Nat × Nat)
deriving DecidableEq, Repr

/-- Fuel-bounded mutual recursion for the block converter.  The Python
functions recurse without bound on the element tree; here the recursion
carries an explicit fuel counter, decremented at every call, so that the
definitions are structurally recursive.  Exhausting the fuel produces the
distinguished error string "fuel", which never arises for a sufficiently
large fuel value; every theorem below either assumes a successful result or
is stated for an arbitrary positive fuel. -/
def fuelError : String := "fuel"

mutual

/-- The `convert_block` generator (render.py lines 206-248): dispatch on the
block tag, with the numbering allocation for top-level lists threaded
through the allocator state. -/
def convertBlock (fuel : Nat) (e : Elem) (numId : Option Nat)
    (listLevel : Nat) (st : AllocState) :
    Except String (List Paragraph × AllocState) :=
  match fuel with
  | 0 => .error fuelError
  | fuel + 1 =>
    if tailBad e then .error "unexpected tail"
    else
      let tag := elementTag e
      if tag = "p" then
        match contentToPara e false none with
        | .error s => .error s
        | .ok p => .ok ([p], st)
      else if tag = "h1" ∨ tag = "h2" ∨ tag = "h3" ∨ tag = "h4" ∨ tag = "h5" ∨
          tag = "h6" then
        match contentToPara e false (some (pyReplace tag "h" "Heading")) with
        | .error s => .error s
        | .ok p => .ok ([p], st)
      else if tag = "ul" ∨ tag = "ol" then
        let alloc : Option Nat × AllocState :=
          if listLevel = 0 then
            let nId := st.nextNumId
            let aId := if tag = "ul" then 24 else st.nextAbstractNumId
            (some nId,
              { nextNumId := st.nextNumId + 1
                nextAbstractNumId :=
                  if tag = "ul" then st.nextAbstractNumId
                  else st.nextAbstractNumId + 1
                numPairs := st.numPairs ++ [(nId, aId)] })
          else (numId, st)
        let pStyle := if tag = "ul" then "BulletNotlast" else "Alg4"
        convertLis fuel e.children alloc.1 (some pStyle) (listLevel + 1) alloc.2
      else if tag = "blockquote" then
        if listLevel ≠ 0 then .error "cannot convert a blockquote inside a list"
        else convertBlocks fuel e.children numId (listLevel + 1) st
      else if tag = "pre" then
        let e' :=
          match e.children with
          | [c] => if c.tag = nsBrace ++ "code" then c else e
          | _ => e
        match contentToPara e' true (some "CodeSample3") with
        | .error s => .error s
        | .ok p => .ok ([p], st)
      else if tag = "hr" then
        .ok ([{ runs := [{ text := "\x0c" }] }], st)
      else .error ("unrecognized tag: <" ++ tag ++ ">")
termination_by structural fuel

/-- Sequential conversion of a list of sibling block elements, threading the
allocator state (the iteration of the generator at each call site of
`convert_block`). -/
def convertBlocks (fuel : Nat) (es : List Elem) (numId : Option Nat)
    (listLevel : Nat) (st : AllocState) :
    Except String (List Paragraph × AllocState) :=
  match fuel with
  | 0 => .error fuelError
  | fuel + 1 =>
    match es with
    | [] => .ok ([], st)
    | e :: rest =>
      match convertBlock fuel e numId listLevel st with
      | .error s => .error s
      | .ok (ps, st') =>
        match convertBlocks fuel rest numId listLevel st' with
        | .error s => .error s
        | .ok (ps', st'') => .ok (ps ++ ps', st'')
termination_by structural fuel

/-- The `convert_li` generator (render.py lines 193-201): the item's inline
content becomes one Paragraph carrying the numbering id and `listLevel - 1`,
and block children found after the inline prefix are converted as nested
content continuing the same list context. -/
def convertLi (fuel : Nat) (e : Elem) (numId : Option Nat)
    (pStyle : Option String) (listLevel : Nat) (st : AllocState) :
    Except String (List Paragraph × AllocState) :=
  match fuel with
  | 0 => .error fuelError
  | fuel + 1 =>
    if elementTag e ≠ "li" then .error "assertion failed: expected a li element"
    else if ¬ liTailOk e then
      .error "assertion failed: li tail must be whitespace"
    else
      match contentOfLi e {} with
      | .error s => .error s
      | .ok (runs, blocks) =>
        match convertBlocks fuel blocks numId listLevel st with
        | .error s => .error s
        | .ok (ps, st') =>
          .ok ({ runs := runs, pStyle := pStyle, numId := numId
                 ilvl := some (listLevel - 1) } :: ps, st')
termination_by structural fuel

/-- Iteration of `convert_li` over the children of a list element
(render.py lines 231-233). -/
def convertLis (fuel : Nat) (es : List Elem) (numId : Option Nat)
    (pStyle : Option String) (listLevel : Nat) (st : AllocState) :
    Except String (List Paragraph × AllocState) :=
  match fuel with
  | 0 => .error fuelError
  | fuel + 1 =>
    match es with
    | [] => .ok ([], st)
    | e :: rest =>
      match convertLi fuel e numId pStyle listLevel st with
      | .error s => .error s
      | .ok (ps, st') =>
        match convertLis fuel rest numId pStyle listLevel st' with
        | .error s => .error s
        | .ok (ps', st'') => .ok (ps ++ ps', st'')
termination_by structural fuel

end

/-- The toplevel loop of `html_to_ooxml` (render.py lines 250-256): convert
every top-level block child of the `<body>` element in order, starting at
list nesting level 0 with no numbering id. -/
def convertBody (fuel : Nat) (es : List Elem) (st : AllocState) :
    Except String (List Paragraph × AllocState) :=
  convertBlocks fuel es none 0 st

/-- The pure core of `html_to_ooxml` (render.py lines 47-256): given the
top-level blocks and the two seed identifiers, produce the document's
paragraph sequence and the minted numbering pairs. -/
def htmlToOoxml (fuel : Nat) (bodyChildren : List Elem)
    (firstNumId firstAbstractNumId : Nat) :
    Except String (List Paragraph × List (Nat × Nat)) :=
  match convertBody fuel bodyChildren
      { nextNumId := firstNumId, nextAbstractNumId := firstAbstractNumId
        numPairs := [] } with
  | .error s => .error s
  | .ok (ps, st) => .ok (ps, st.numPairs)

/-! ### The Term-Emphasis Preprocessor (`preprocess`, render.py lines 9-42) -/

/-- Split text into its lines, each keeping its trailing newline (the last
line may lack one).  Basis for modelling `re.split(ur'(?m)^(#.*)$', source)`:
the multiline anchors make every line whose first character is `#` a
separator. -/
def toLinesAux (cur : List Char) : List Char → List (List Char)
  | [] => if cur.isEmpty then [] else [cur.reverse]
  | c :: cs =>
    if c = '\n' then (cur.reverse ++ ['\n']) :: toLinesAux [] cs
    else toLinesAux (c :: cur) cs

def toLines (l : List Char) : List (List Char) := toLinesAux [] l

/-- A heading separator line split as the regex `^(#.*)$` sees it: the
captured group stops before the newline, which stays with the following
body piece. -/
def splitHeadingLine (l : List Char) : List Char × List Char :=
  (l.takeWhile (· ≠ '\n'), l.dropWhile (· ≠ '\n'))

/-- Grouping of the `re.split` pieces as consumed by the loop in
`preprocess` (render.py line 13): the alternating (heading, body) pairs.
Text before the first heading line (`sections[0]` in the source) belongs to
no pair — exactly as in the source, where the loop starts at index 1 and
`sections[0]` is never added to the result. -/
def sectionsAux (ls : List (List Char)) (cur : Option (List Char × List Char)) :
    List (List Char × List Char) :=
  match ls with
  | [] =>
    match cur with
    | none => []
    | some s => [s]
  | l :: rest =>
    if l.head? = some '#' then
      match cur with
      | none => sectionsAux rest (some (splitHeadingLine l))
      | some s => s :: sectionsAux rest (some (splitHeadingLine l))
    else
      match cur with
      | none => sectionsAux rest none
      | some (h, b) => sectionsAux rest (some (h, b ++ l))

def sections (src : List Char) : List (List Char × List Char) :=
  sectionsAux (toLines src) none

/-- Maximal runs of `\w` characters, i.e. `re.findall(ur'\w+', s)`. -/
def wordTokensAux (acc : List Char) : List Char → List (List Char)
  | [] => if acc.isEmpty then [] else [acc.reverse]
  | c :: cs =>
    if isWordChar c then wordTokensAux (c :: acc) cs
    else if acc.isEmpty then wordTokensAux [] cs
    else acc.reverse :: wordTokensAux [] cs

def wordTokens (l : List Char) : List (List Char) := wordTokensAux [] l

/-- The first match of `re.search(ur'\([^)]*\)', heading)` (render.py line
19): the first `(` that is followed by some `)`, up to and including that
`)`. -/
def firstParenGroup (l : List Char) : Option (List Char) :=
  match l.dropWhile (· ≠ '(') with
  | [] => none
  | c :: after =>
    if c = '(' ∧ after.any (· = ')') then
      some ('(' :: (after.takeWhile (· ≠ ')') ++ [')']))
    else none

/-- Candidate names from a heading (render.py lines 19-21): all word tokens
inside the first parenthesized group, if any. -/
def headingNames (heading : List Char) : List (List Char) :=
  match firstParenGroup heading with
  | none => []
  | some g => wordTokens g

/-- Match one-or-more whitespace (`\s+`) at the front. -/
def matchSpaces1 : List Char → Option (List Char)
  | [] => none
  | c :: cs => if isPySpace c then some (cs.dropWhile isPySpace) else none

/-- Match a literal word at the front (with optional per-character
lowercasing for `(?i)` patterns). -/
def matchLit (ci : Bool) (w : List Char) (l : List Char) : Option (List Char) :=
  if (l.take w.length).map (fun c => if ci then c.toLower else c) = w then
    some (l.drop w.length)
  else none

/-- Match `\w+` (greedy) at the front, returning the token and the rest. -/
def matchWord1 : List Char → Option (List Char × List Char)
  | [] => none
  | c :: cs =>
    if isWordChar c then
      some ((c :: cs).takeWhile isWordChar, (c :: cs).dropWhile isWordChar)
    else none

/-- Whether a word boundary `\b` lies between the characters `prev` and
`next` (string ends count as non-word). -/
def isBoundary (prev next : Option Char) : Bool :=
  (prev.elim false isWordChar) ≠ (next.elim false isWordChar)

/-- Attempt the match of `called\s+on\s+an\s+object\s+(\w+)` at the front
of `l`; on success return the captured name and the rest. -/
def matchCalled (l : List Char) : Option (List Char × List Char) :=
  match matchLit false "called".toList l with
  | none => none
  | some r1 =>
    match matchSpaces1 r1 with
    | none => none
    | some r2 =>
      match matchLit false "on".toList r2 with
      | none => none
      | some r3 =>
        match matchSpaces1 r3 with
        | none => none
        | some r4 =>
          match matchLit false "an".toList r4 with
          | none => none
          | some r5 =>
            match matchSpaces1 r5 with
            | none => none
            | some r6 =>
              match matchLit false "object".toList r6 with
              | none => none
              | some r7 =>
                match matchSpaces1 r7 with
                | none => none
                | some r8 => matchWord1 r8

/-- All names captured by
`re.finditer(ur'\bcalled\s+on\s+an\s+object\s+(\w+)', body)` (render.py
lines 24-25): left-to-right, non-overlapping, `\b` requiring a non-word
(or absent) character before `called`.  The fuel argument bounds the scan
and is instantiated with the text length, which every step consumes. -/
def calledNamesAux (fuel : Nat) (prev : Option Char) (l : List Char) :
    List (List Char) :=
  match fuel with
  | 0 => []
  | fuel + 1 =>
    match l with
    | [] => []
    | c :: cs =>
      if prev.elim true (fun p => ¬ isWordChar p) then
        match matchCalled (c :: cs) with
        | some (name, rest) =>
          name :: calledNamesAux fuel (name.getLast?) rest
        | none => calledNamesAux fuel (some c) cs
      else calledNamesAux fuel (some c) cs

def calledNames (body : List Char) : List (List Char) :=
  calledNamesAux body.length none body

/-- Attempt the match of `(?i)let\s+(\w+)\s+be\b` at the front of `l`. -/
def matchLet (l : List Char) : Option (List Char × List Char) :=
  match matchLit true "let".toList l with
  | none => none
  | some r1 =>
    match matchSpaces1 r1 with
    | none => none
    | some r2 =>
      match matchWord1 r2 with
      | none => none
      | some (name, r3) =>
        match matchSpaces1 r3 with
        | none => none
        | some r4 =>
          match matchLit true "be".toList r4 with
          | none => none
          | some r5 =>
            if r5.head?.elim true (fun c => ¬ isWordChar c) then
              some (name, r5)
            else none

/-- All names captured by `re.finditer(ur'(?i)\blet\s+(\w+)\s+be\b', body)`
(render.py lines 26-27). -/
def letNamesAux (fuel : Nat) (prev : Option Char) (l : List Char) :
    List (List Char) :=
  match fuel with
  | 0 => []
  | fuel + 1 =>
    match l with
    | [] => []
    | c :: cs =>
      if prev.elim true (fun p => ¬ isWordChar p) then
        match matchLet (c :: cs) with
        | some (name, rest) =>
          -- the match always ends in the word "be"; only the word-ness of
          -- the final character matters for later boundary checks
          name :: letNamesAux fuel (some 'e') rest
        | none => letNamesAux fuel (some c) cs
      else letNamesAux fuel (some c) cs

def letNames (body : List Char) : List (List Char) :=
  letNamesAux body.length none body

/-- One substitution step of
`re.sub(ur'(?<!\*)\b(' + '|'.join(names) + ur')\b(?!\*)', ...)`
(render.py lines 30-31): try, at the current position, the alternation of
`names` in order — the first name that matches the following characters and
is followed by a word boundary that is not a `*` wins; the match also needs
a word boundary that is not a `*` on its left.  When `names` is EMPTY the
joined pattern degenerates to `(?<!\*)\b()\b(?!\*)`, which matches the
empty string at every word boundary not adjacent to a `*`, exactly as in
the source. -/
def tryNameMatch (names : List (List Char)) (prev : Option Char)
    (l : List Char) : Option (List Char × List Char) :=
  match names with
  | [] => none
  | n :: rest =>
    if l.take n.length = n ∧
        (l.drop n.length).head?.elim true (fun c => ¬ isWordChar c) ∧
        (l.drop n.length).head? ≠ some '*' then
      some (n, l.drop n.length)
    else tryNameMatch rest prev l

/-- The `re.sub` loop for the name-italicizing pattern (render.py lines
30-31): Python scans left to right; a zero-width match (the empty-names
pattern) inserts the replacement and moves on one character. -/
def italicizeAux (fuel : Nat) (names : List (List Char)) (prev : Option Char)
    (l : List Char) : List Char :=
  match fuel with
  | 0 => l
  | fuel + 1 =>
    if names.isEmpty then
      let here :=
        if isBoundary prev l.head? ∧ prev ≠ some '*' ∧ l.head? ≠ some '*' then
          "**".toList
        else []
      match l with
      | [] => here
      | c :: cs => here ++ c :: italicizeAux fuel names (some c) cs
    else
      match l with
      | [] => []
      | c :: cs =>
        if prev.elim true (fun p => ¬ isWordChar p) ∧ prev ≠ some '*' then
          match tryNameMatch names prev (c :: cs) with
          | some (n, rest) =>
            '*' :: (n ++ ['*'] ++ italicizeAux fuel names (some '*') rest)
          | none => c :: italicizeAux fuel names (some c) cs
        else c :: italicizeAux fuel names (some c) cs

/-- The name-italicizing substitution (render.py lines 29-31): replace
every standalone occurrence of a candidate name in the body with the same
text wrapped in `*`.  With an empty candidate list the degenerate pattern
inserts `**` at every word boundary (the source's behavior). -/
def italicizeNames (names : List (List Char)) (body : List Char) : List Char :=
  italicizeAux (body.length + 1) names none body

/-- Attempt the match of `(the\s+)this(\s+value)` at the front (the leading
`\b` is the caller's duty, the trailing `\b` is checked here); returns the
replaced text and the rest. -/
def matchTheThis (l : List Char) : Option (List Char × List Char) :=
  match matchLit false "the".toList l with
  | none => none
  | some r1 =>
    match matchSpaces1 r1 with
    | none => none
    | some r2 =>
      let sp1 := r1.take (r1.length - r2.length)
      match matchLit false "this".toList r2 with
      | none => none
      | some r3 =>
        match matchSpaces1 r3 with
        | none => none
        | some r4 =>
          let sp2 := r3.take (r3.length - r4.length)
          match matchLit false "value".toList r4 with
          | none => none
          | some r5 =>
            if r5.head?.elim true (fun c => ¬ isWordChar c) then
              some ("the".toList ++ sp1 ++ "**this**".toList ++ sp2 ++
                "value".toList, r5)
            else none

/-- The `re.sub(ur'\b(the\s+)this(\s+value)\b', ...)` rewrite (render.py
lines 34-36): mark `this` strong inside the phrase "the this value",
preserving the surrounding words and whitespace. -/
def theThisAux (fuel : Nat) (prev : Option Char) (l : List Char) : List Char :=
  match fuel with
  | 0 => l
  | fuel + 1 =>
    match l with
    | [] => []
    | c :: cs =>
      if prev.elim true (fun p => ¬ isWordChar p) then
        match matchTheThis (c :: cs) with
        | some (repl, rest) => repl ++ theThisAux fuel (some 'e') rest
        | none => c :: theThisAux fuel (some c) cs
      else c :: theThisAux fuel (some c) cs

def theThisRewrite (body : List Char) : List Char :=
  theThisAux body.length none body

/-- Processing of one section's body (render.py lines 16-36): collect the
candidate names from heading and body, italicize them, then apply the
"the this value" rewrite.  (Python gathers the names into a `set`, whose
iteration order is arbitrary; the model keeps first-occurrence order.) -/
def processBody (heading body : List Char) : List Char :=
  let names := headingNames heading ++ calledNames body ++ letNames body
  theThisRewrite (italicizeNames names.dedup body)

/-- The `preprocess` function (render.py lines 9-42): concatenate, for each
(heading, body) section, the heading and the processed body.  As in the
source, text before the first heading is not part of any section and is
absent from the result. -/
def preprocess (src : List Char) : List Char :=
  ((sections src).map (fun s => s.1 ++ processBody s.1 s.2)).flatten

/-! ### Spec-side definitions, used to state refinement properties -/

/-- Spec-side whitespace collapsing: every maximal run of whitespace
becomes a single space, boundary runs included (they are preserved as a
single space, not trimmed).  `prevSpace` records whether the previous
character was whitespace. -/
def collapseAux (prevSpace : Bool) : List Char → List Char
  | [] => []
  | c :: cs =>
    if isPySpace c then
      if prevSpace then collapseAux true cs else ' ' :: collapseAux true cs
    else c :: collapseAux false cs

def specCollapse (l : List Char) : List Char := collapseAux false l

/-- Spec-side description of the Numbering Allocator: for the top-level
lists in order, each consumes one numbering id; an unordered list pairs it
with the fixed shared abstract id 24 without advancing the abstract
counter; an ordered list mints a fresh, strictly increasing abstract id. -/
def specAllocs : List String → Nat → Nat → List (Nat × Nat)
  | [], _, _ => []
  | t :: ts, n, a =>
    if t = "ul" then (n, 24) :: specAllocs ts (n + 1) a
    else (n, a) :: specAllocs ts (n + 1) (a + 1)

/-- The tags of the top-level lists among a sequence of sibling blocks (the
lists for which the Block Converter allocates numbering at nesting
level 0). -/
def topListTags (es : List Elem) : List String :=
  (es.filter (fun e => elementTag e = "ul" ∨ elementTag e = "ol")).map elementTag

/-! ### Theorems -/

@[simp] theorem Elem.tag_mk (t : String) (tx : Option String) (cs : List Elem)
    (tl : Option String) : (Elem.mk t tx cs tl).tag = t := rfl

@[simp] theorem Elem.text_mk (t : String) (tx : Option String) (cs : List Elem)
    (tl : Option String) : (Elem.mk t tx cs tl).text = tx := rfl

@[simp] theorem Elem.children_mk (t : String) (tx : Option String)
    (cs : List Elem) (tl : Option String) : (Elem.mk t tx cs tl).children = cs := rfl

@[simp] theorem Elem.tail_mk (t : String) (tx : Option String) (cs : List Elem)
    (tl : Option String) : (Elem.mk t tx cs tl).tail = tl := rfl

/-- Stripping the XHTML namespace from a namespaced tag yields the local
tag name. -/
@[simp] theorem elementTag_ns (t : String) (tx : Option String)
    (cs : List Elem) (tl : Option String) :
    elementTag (.mk (nsBrace ++ t) tx cs tl) = t := by
  have hdata : (nsBrace ++ t).toList = nsBrace.toList ++ t.toList := rfl
  simp only [elementTag, Elem.tag_mk, hdata, List.take_left, if_true, eq_self_iff_true,
    List.drop_left]
  rfl

/-- Claim C1: the spec says the Inline Converter sets the attribute for a
tag for the whole subtree and MERGES it with the attributes of enclosing
inline nodes, so that for a strong element containing a code child the
child's runs carry both attributes.  The code drops the enclosing
attributes at the recursion (`convert_inline(child)` is called with no
attributes, render.py line 172), so the run for the code child's text
carries only `code := true` and NOT `strong := true`. -/
theorem c1_nested_inline_attrs_dropped :
    convertInline
      (.mk (nsBrace ++ "strong") none
        [.mk (nsBrace ++ "code") (some "x") [] none] none) {} =
      .ok [{ text := "x", em := false, strong := false, code := true }] := rfl

/-- Claim C2: the spec says a preformatted block is lowered as a single
Paragraph styled "CodeSample3" with whitespace preserved verbatim and every
line break rendered as an explicit break segment; for `x = 1;\ny = 2;` it
promises exactly one internal line-break segment.  The code passes
`preserve_space=True` to `content_to_para` which ignores it, so `make_run`
collapses the newline to a space: the single paragraph's run text is
`x = 1; y = 2;` and its segment list is one text segment with NO
line-break segment. -/
theorem c2_pre_block_collapses_whitespace : ∀ (fuel : Nat) (st : AllocState),
    convertBlock (fuel + 1)
      (.mk (nsBrace ++ "pre") none
        [.mk (nsBrace ++ "code") (some "x = 1;\ny = 2;") [] none] none)
      none 0 st =
      .ok ([{ runs := [{ text := "x = 1; y = 2;" }],
              pStyle := some "CodeSample3" }], st)
    ∧ runSegments { text := "x = 1; y = 2;" } = [.text "x = 1; y = 2;"] :=
  fun _ _ => ⟨rfl, rfl⟩

/-- Claim C4: converting the nested unordered list `- a\n  - b` (markup
tree `ul [li "a" [ul [li "b"]]]`) yields exactly two Paragraphs, "a" at
indent level 0 and "b" at indent level 1, both carrying the same
numbering id (the allocator's next id), with one recorded (numId, 24)
pair and the abstract counter unchanged. -/
theorem c4_nested_list_same_numbering_id : ∀ (fuel : Nat) (st : AllocState),
    convertBlock (fuel + 8)
      (.mk (nsBrace ++ "ul") none
        [.mk (nsBrace ++ "li") (some "a")
          [.mk (nsBrace ++ "ul") none
            [.mk (nsBrace ++ "li") (some "b") [] none] none]
          none]
        none)
      none 0 st =
      .ok ([{ runs := [{ text := "a" }], pStyle := some "BulletNotlast",
              numId := some st.nextNumId, ilvl := some 0 },
            { runs := [{ text := "b" }], pStyle := some "BulletNotlast",
              numId := some st.nextNumId, ilvl := some 1 }],
           { nextNumId := st.nextNumId + 1
             nextAbstractNumId := st.nextAbstractNumId
             numPairs := st.numPairs ++ [(st.nextNumId, 24)] }) :=
  fun _ _ => rfl

/-- Claim C5: the spec says that when a section's candidate term set is
empty, no substitution occurs and the body is returned unchanged.  In the
code `'|'.join(names)` over an empty set builds the pattern
`(?<!\*)\b()\b(?!\*)`, which matches the empty string at every word
boundary, so the substitution inserts `**` throughout: body `ab` becomes
`**ab**`, not `ab`. -/
theorem c5_empty_name_set_inserts_markers :
    italicizeNames [] "ab".toList = "**ab**".toList ∧
    italicizeNames [] "ab".toList ≠ "ab".toList :=
  ⟨rfl, by decide⟩

/-- Claim C6: the spec says the text before the first heading line is
passed through the preprocessor unmodified and appears unchanged in its
output.  In the code the loop over the `re.split` pieces starts at index 1
and never adds `sections[0]`, so the pre-heading text is dropped: on input
`x\n#A\n` the output is `#A\n` and the prefix `x\n` is gone. -/
theorem c6_pre_heading_text_dropped :
    preprocess "x\n#A\n".toList = "#A\n".toList ∧
    ¬ ("x\n".toList <+: preprocess "x\n#A\n".toList) :=
  ⟨rfl, by decide⟩

/-- Claim C7: converting a blockquote at nesting level ≠ 0 (inside a list)
raises a fatal StructuralError and produces no output; at nesting level 0
the blockquote contributes no paragraph of its own — its children are
converted at nesting level + 1 with no paragraph style inherited from it. -/
theorem c7_blockquote_nesting (fuel : Nat) (e : Elem) (numId : Option Nat)
    (lvl : Nat) (st : AllocState) (htag : elementTag e = "blockquote") :
    (lvl ≠ 0 →
      ∃ msg, convertBlock (fuel + 1) e numId lvl st = .error msg ∧
        msg ≠ fuelError)
    ∧ (lvl = 0 → tailBad e = false →
        convertBlock (fuel + 1) e numId lvl st =
          convertBlocks fuel e.children numId 1 st) := by
  constructor
  · intro hlvl
    by_cases ht : tailBad e
    · exact ⟨"unexpected tail", by simp [convertBlock, ht], by decide⟩
    · refine ⟨"cannot convert a blockquote inside a list", ?_, by decide⟩
      simp [convertBlock, ht, htag, hlvl]
  · intro hlvl ht
    subst hlvl
    simp [convertBlock, ht, htag]

/-- Witness for c7_blockquote_nesting at a concrete blockquote element. -/
theorem c7_blockquote_nesting_witness :
    elementTag (.mk (nsBrace ++ "blockquote") none
      [.mk (nsBrace ++ "p") (some "q") [] none] none) = "blockquote" ∧
    (∃ msg, convertBlock 5
        (.mk (nsBrace ++ "blockquote") none
          [.mk (nsBrace ++ "p") (some "q") [] none] none) none 1
        { nextNumId := 9, nextAbstractNumId := 40, numPairs := [] } =
        .error msg ∧ msg ≠ fuelError) ∧
    convertBlock 5
        (.mk (nsBrace ++ "blockquote") none
          [.mk (nsBrace ++ "p") (some "q") [] none] none) none 0
        { nextNumId := 9, nextAbstractNumId := 40, numPairs := [] } =
      convertBlocks 4 [.mk (nsBrace ++ "p") (some "q") [] none] none 1
        { nextNumId := 9, nextAbstractNumId := 40, numPairs := [] } :=
  ⟨by simp,
   (c7_blockquote_nesting 4 _ none 1 _ (by simp)).1 (by decide),
   (c7_blockquote_nesting 4 _ none 0 _ (by simp)).2 rfl rfl⟩

/-- Helper: when no child of a list item is inline, the loop of
`content_of_li_element_to_runs_and_blocks` collects every child as a block
and adds no run. -/
theorem liLoop_no_inline (cs : List Elem) (runs : List Run)
    (blocks : List Elem) (attrs : Attrs)
    (h : ∀ c ∈ cs, isInline c = false) :
    liLoop cs runs blocks attrs = .ok (runs, blocks ++ cs) := by
  induction cs generalizing blocks with
  | nil => simp [liLoop]
  | cons c rest ih =>
    have hc : isInline c = false := h c (by simp)
    simp only [liLoop, hc, Bool.false_eq_true, if_false]
    rw [ih (blocks ++ [c]) (fun d hd => h d (by simp [hd]))]
    simp

/-- Claim C8 counterexample: a list item with no inline prefix and only
block-level children does NOT raise — the `assert len(blocks) == 0` is
only reachable when an inline child follows a block child — and it DOES
produce output paragraphs: an empty item paragraph followed by the
converted block children. -/
theorem c8_counterexample :
    convertLi 10
      (.mk (nsBrace ++ "li") none
        [.mk (nsBrace ++ "p") (some "x") [] none] none)
      (some 7) (some "Alg4") 1
      { nextNumId := 9, nextAbstractNumId := 40, numPairs := [] } =
      .ok ([{ runs := [], pStyle := some "Alg4", numId := some 7,
              ilvl := some 0 },
            { runs := [{ text := "x" }] }],
           { nextNumId := 9, nextAbstractNumId := 40, numPairs := [] }) := rfl

/-- Claim C8 (amended): a list item with no inline prefix (no leading text)
and only block-level children does not raise; it yields one Paragraph with
no runs, carrying the numbering id and level, followed by the conversion of
its block children (the fatal assertion fires only when an inline child
follows a block child). -/
theorem c8_no_inline_prefix_no_error (fuel : Nat) (e : Elem)
    (numId : Option Nat) (pStyle : Option String) (lvl : Nat)
    (st : AllocState) (htag : elementTag e = "li")
    (htail : liTailOk e = true) (htext : textRunsOf e.text {} = [])
    (hbl : ∀ c ∈ e.children, isInline c = false) :
    convertLi (fuel + 1) e numId pStyle lvl st =
      match convertBlocks fuel e.children numId lvl st with
      | .error s => .error s
      | .ok (ps, st') =>
        .ok ({ runs := [], pStyle := pStyle, numId := numId
               ilvl := some (lvl - 1) } :: ps, st') := by
  have hli : contentOfLi e {} = .ok ([], e.children) := by
    rw [contentOfLi, htext, liLoop_no_inline e.children [] [] {} hbl]
    simp
  simp [convertLi, htag, htail, hli]

/-- Witness for c8_no_inline_prefix_no_error at a concrete list item. -/
theorem c8_no_inline_prefix_no_error_witness :
    elementTag (.mk (nsBrace ++ "li") none
      [.mk (nsBrace ++ "p") (some "x") [] none] none) = "li" ∧
    liTailOk (.mk (nsBrace ++ "li") none
      [.mk (nsBrace ++ "p") (some "x") [] none] none) = true ∧
    convertLi 8
      (.mk (nsBrace ++ "li") none
        [.mk (nsBrace ++ "p") (some "x") [] none] none)
      (some 3) (some "BulletNotlast") 2
      { nextNumId := 9, nextAbstractNumId := 40, numPairs := [] } =
      match convertBlocks 7
          [(.mk (nsBrace ++ "p") (some "x") [] none : Elem)] (some 3) 2
          { nextNumId := 9, nextAbstractNumId := 40, numPairs := [] } with
      | .error s => .error s
      | .ok (ps, st') =>
        .ok ({ runs := [], pStyle := some "BulletNotlast", numId := some 3
               ilvl := some 1 } :: ps, st') :=
  ⟨by simp, rfl,
   c8_no_inline_prefix_no_error 7 _ (some 3) (some "BulletNotlast") 2 _
     (by simp) rfl rfl (by decide)⟩

@[simp] theorem exceptBind_ok {ε α β : Type} (a : α) (f : α → Except ε β) :
    (Except.ok a >>= f) = f a := rfl

@[simp] theorem exceptBind_error {ε α β : Type} (e : ε) (f : α → Except ε β) :
    ((Except.error e : Except ε α) >>= f) = .error e := rfl

/-! ### Whitespace collapsing: the sentinel trick of `make_run` equals the
direct single-pass collapse -/

theorem intercalate_cons_ne {α : Type} (sep x : List α) (rest : List (List α)) (h : rest ≠ []) :
    List.intercalate sep (x :: rest) = x ++ sep ++ List.intercalate sep rest := by
  cases rest with
  | nil => contradiction
  | cons y ys => simp [List.intercalate, List.intersperse_cons₂, List.append_assoc]

theorem intercalate_singleton {α : Type} (sep x : List α) :
    List.intercalate sep [x] = x := by
  simp [List.intercalate]

theorem pyWordsAux_ne_nil (l : List Char) (acc : List Char) (hacc : ¬ acc.isEmpty) :
    pyWordsAux acc l ≠ [] := by
  induction l generalizing acc with
  | nil => simp [pyWordsAux, hacc]
  | cons c cs ih =>
    simp only [pyWordsAux]
    split
    · simp [hacc]
    · exact ih (c :: acc) (by simp)

theorem pyWordsAux_nil_ne_nil (l : List Char) (d : Char) (hd : isPySpace d = false) :
    pyWordsAux [] (l ++ [d]) ≠ [] := by
  induction l with
  | nil => simp [pyWordsAux, hd]
  | cons c cs ih =>
    simp only [List.cons_append, pyWordsAux]
    split
    · simpa using ih
    · exact pyWordsAux_ne_nil _ [c] (by simp)

theorem pyWords_collapse (d : Char) (hd : isPySpace d = false) :
    ∀ n l, l.length ≤ n →
      (∀ acc, ¬ acc.isEmpty →
        List.intercalate [' '] (pyWordsAux acc (l ++ [d])) =
          acc.reverse ++ collapseAux false (l ++ [d]))
      ∧ List.intercalate [' '] (pyWordsAux [] (l ++ [d])) =
          collapseAux true (l ++ [d]) := by
  intro n
  induction n with
  | zero =>
    intro l hl
    have : l = [] := List.length_eq_zero.mp (Nat.le_zero.mp hl)
    subst this
    constructor
    · intro acc hacc
      simp [pyWordsAux, hd, hacc, collapseAux, intercalate_singleton]
    · simp [pyWordsAux, hd, collapseAux, intercalate_singleton]
  | succ n ih =>
    intro l hl
    cases l with
    | nil =>
      constructor
      · intro acc hacc
        simp [pyWordsAux, hd, hacc, collapseAux, intercalate_singleton]
      · simp [pyWordsAux, hd, collapseAux, intercalate_singleton]
    | cons c cs =>
      have hcs : cs.length ≤ n := by simp at hl; omega
      by_cases hc : isPySpace c
      · constructor
        · intro acc hacc
          simp only [List.cons_append, pyWordsAux, hc, if_true, hacc,
            Bool.false_eq_true, if_false, List.append_eq]
          rw [intercalate_cons_ne _ _ _ (pyWordsAux_nil_ne_nil cs d hd)]
          rw [(ih cs hcs).2]
          simp [collapseAux, hc, List.append_assoc]
        · simp only [List.cons_append, pyWordsAux, hc, if_true, List.isEmpty_nil,
            if_true, List.append_eq]
          rw [(ih cs hcs).2]
          simp [collapseAux, hc]
      · constructor
        · intro acc hacc
          simp only [List.cons_append, pyWordsAux, hc, Bool.false_eq_true, if_false,
            List.append_eq]
          rw [((ih cs hcs).1 (c :: acc) (by simp))]
          simp [collapseAux, hc, List.append_assoc]
        · simp only [List.cons_append, pyWordsAux, hc, Bool.false_eq_true, if_false,
            List.append_eq]
          rw [((ih cs hcs).1 [c] (by simp))]
          simp [collapseAux, hc]

theorem collapseAux_append_nonspace (l : List Char) (b : Bool) (d : Char)
    (hd : isPySpace d = false) :
    collapseAux b (l ++ [d]) = collapseAux b l ++ [d] := by
  induction l generalizing b with
  | nil => simp [collapseAux, hd]
  | cons c cs ih =>
    by_cases hc : isPySpace c
    · simp only [List.cons_append, collapseAux, hc, if_true]
      split
      · exact ih true
      · simp [ih true]
    · simp [List.cons_append, collapseAux, hc, ih false]

theorem normalizeSpace_eq_specCollapse (l : List Char) :
    normalizeSpace l = specCollapse l := by
  have h1 : pyWords ('[' :: (l ++ [']'])) = pyWordsAux ['['] (l ++ [']']) := by
    simp [pyWords, pyWordsAux, isPySpace]
  have h2 := (pyWords_collapse ']' (by decide) l.length l (le_refl _)).1 ['['] (by simp)
  rw [normalizeSpace, h1, h2]
  rw [collapseAux_append_nonspace l false ']' (by decide)]
  simp [specCollapse, List.dropLast_concat]

/-- Claim C9 counterexample: the claim says leading and trailing whitespace
is trimmed; `make_run` preserves boundary whitespace as a single space, so
a plain paragraph with text `" hi "` yields run text `" hi "`, not the
trimmed `"hi"`. -/
theorem c9_counterexample :
    convertBlock 3 (.mk (nsBrace ++ "p") (some " hi ") [] none) none 0
      { nextNumId := 9, nextAbstractNumId := 40, numPairs := [] } =
      .ok ([{ runs := [{ text := " hi " }] }],
           { nextNumId := 9, nextAbstractNumId := 40, numPairs := [] }) ∧
    (" hi " : String) ≠ "hi" :=
  ⟨rfl, by decide⟩

/-- Claim C9 (amended): for every plain paragraph with no inline markup,
the output Run text equals the input text with every maximal run of
whitespace collapsed to a single space — boundary runs included, so
leading/trailing whitespace is preserved as one space rather than trimmed —
followed by the rewrite of a leading literal "NOTE " to "NOTE" plus a tab
(which, when it applies, also sets the "Note" paragraph style). -/
theorem c9_plain_paragraph_run_text (fuel : Nat) (st : AllocState)
    (t : String) (ht : ¬ t.isEmpty) :
    convertBlock (fuel + 1) (.mk (nsBrace ++ "p") (some t) [] none)
      none 0 st =
      .ok ([{ runs := [makeRun t {}]
              pStyle := if (makeRun t {}).text.toList.take 5 = "NOTE\t".toList
                        then some "Note" else none }], st)
    ∧ (makeRun t {}).text = ⟨noteFix (specCollapse t.toList)⟩ := by
  constructor
  · have hne : t ≠ "" := by
      intro h
      subst h
      exact ht rfl
    simp [convertBlock, tailBad, contentToPara, contentToRuns, childRunsLoop,
      textRunsOf, hne, String.toList]
  · rw [makeRun, normalizeSpace_eq_specCollapse]

/-- Witness for c9_plain_paragraph_run_text at the concrete text
`"  a  b "`. -/
theorem c9_plain_paragraph_run_text_witness :
    ¬ ("  a  b " : String).isEmpty ∧
    (convertBlock 2 (.mk (nsBrace ++ "p") (some "  a  b ") [] none)
      none 0 { nextNumId := 9, nextAbstractNumId := 40, numPairs := [] } =
      .ok ([{ runs := [makeRun "  a  b " {}]
              pStyle := if (makeRun "  a  b " {}).text.toList.take 5 =
                  "NOTE\t".toList then some "Note" else none }],
           { nextNumId := 9, nextAbstractNumId := 40, numPairs := [] })
    ∧ (makeRun "  a  b " {}).text = ⟨noteFix (specCollapse "  a  b ".toList)⟩) :=
  ⟨by decide,
   c9_plain_paragraph_run_text 1 _ "  a  b " (by decide)⟩

/-! ### State preservation at positive nesting level -/

/-- Helper: `content_to_para` never sets a numbering reference. -/
theorem contentToPara_fields (e : Elem) (b : Bool) (sty : Option String)
    (p : Paragraph) (h : contentToPara e b sty = .ok p) :
    p.numId = none ∧ p.ilvl = none := by
  unfold contentToPara at h
  split at h
  · cases h
  · cases h
    exact ⟨rfl, rfl⟩

theorem levelPos (fuel : Nat) :
    (∀ e numId lvl st ps st', 1 ≤ lvl →
        convertBlock fuel e numId lvl st = .ok (ps, st') →
        st' = st ∧ (numId = none → ∀ p ∈ ps, p.numId = none)) ∧
    (∀ es numId lvl st ps st', 1 ≤ lvl →
        convertBlocks fuel es numId lvl st = .ok (ps, st') →
        st' = st ∧ (numId = none → ∀ p ∈ ps, p.numId = none)) ∧
    (∀ e numId pStyle lvl st ps st', 1 ≤ lvl →
        convertLi fuel e numId pStyle lvl st = .ok (ps, st') →
        st' = st ∧ (numId = none → ∀ p ∈ ps, p.numId = none)) ∧
    (∀ es numId pStyle lvl st ps st', 1 ≤ lvl →
        convertLis fuel es numId pStyle lvl st = .ok (ps, st') →
        st' = st ∧ (numId = none → ∀ p ∈ ps, p.numId = none)) := by
  induction fuel with
  | zero =>
    refine ⟨?_, ?_, ?_, ?_⟩
    · intro e numId lvl st ps st' hlvl h
      simp [convertBlock] at h
    · intro es numId lvl st ps st' hlvl h
      simp [convertBlocks] at h
    · intro e numId pStyle lvl st ps st' hlvl h
      simp [convertLi] at h
    · intro es numId pStyle lvl st ps st' hlvl h
      simp [convertLis] at h
  | succ fuel ih =>
    obtain ⟨ihB, ihBs, ihLi, ihLis⟩ := ih
    refine ⟨?_, ?_, ?_, ?_⟩
    · intro e numId lvl st ps st' hlvl h
      have hl0 : ¬ lvl = 0 := by omega
      simp only [convertBlock] at h
      by_cases htl : tailBad e
      · simp [htl] at h
      · simp only [htl, Bool.false_eq_true, if_false] at h
        by_cases h1 : elementTag e = "p"
        · simp only [h1, if_true] at h
          cases hp : contentToPara e false none with
          | error s => rw [hp] at h; cases h
          | ok p =>
            rw [hp] at h
            cases h
            refine ⟨rfl, fun _ q hq => ?_⟩
            simp at hq
            subst hq
            exact (contentToPara_fields _ _ _ _ hp).1
        · simp only [h1, if_false] at h
          by_cases h2 : elementTag e = "h1" ∨ elementTag e = "h2" ∨
              elementTag e = "h3" ∨ elementTag e = "h4" ∨
              elementTag e = "h5" ∨ elementTag e = "h6"
          · simp only [h2, if_true] at h
            cases hp : contentToPara e false
                (some (pyReplace (elementTag e) "h" "Heading")) with
            | error s => rw [hp] at h; cases h
            | ok p =>
              rw [hp] at h
              cases h
              refine ⟨rfl, fun _ q hq => ?_⟩
              simp at hq
              subst hq
              exact (contentToPara_fields _ _ _ _ hp).1
          · simp only [h2, if_false] at h
            by_cases h3 : elementTag e = "ul" ∨ elementTag e = "ol"
            · simp only [h3, if_true, hl0, if_false] at h
              exact ihLis _ _ _ _ _ _ _ (by omega) h
            · simp only [h3, if_false] at h
              by_cases h4 : elementTag e = "blockquote"
              · simp only [h4, if_true] at h
                simp [hl0] at h
              · simp only [h4, if_false] at h
                by_cases h5 : elementTag e = "pre"
                · simp only [h5, if_true] at h
                  cases hp : contentToPara
                      (match e.children with
                       | [c] => if c.tag = nsBrace ++ "code" then c else e
                       | _ => e) true (some "CodeSample3") with
                  | error s => rw [hp] at h; cases h
                  | ok p =>
                    rw [hp] at h
                    cases h
                    refine ⟨rfl, fun _ q hq => ?_⟩
                    simp at hq
                    subst hq
                    exact (contentToPara_fields _ _ _ _ hp).1
                · simp only [h5, if_false] at h
                  by_cases h6 : elementTag e = "hr"
                  · simp only [h6, if_true] at h
                    cases h
                    refine ⟨rfl, fun _ q hq => ?_⟩
                    simp at hq
                    subst hq
                    rfl
                  · simp [h6] at h
    · intro es numId lvl st ps st' hlvl h
      cases es with
      | nil =>
        simp only [convertBlocks] at h
        cases h
        exact ⟨rfl, by simp⟩
      | cons e rest =>
        simp only [convertBlocks] at h
        cases hb : convertBlock fuel e numId lvl st with
        | error s => rw [hb] at h; cases h
        | ok pr =>
          obtain ⟨ps1, st1⟩ := pr
          rw [hb] at h
          simp only [] at h
          cases hbs : convertBlocks fuel rest numId lvl st1 with
          | error s => rw [hbs] at h; simp at h
          | ok pr2 =>
            obtain ⟨ps2, st2⟩ := pr2
            rw [hbs] at h
            simp only [] at h
            cases h
            obtain ⟨hst1, hn1⟩ := ihB _ _ _ _ _ _ hlvl hb
            subst hst1
            obtain ⟨hst2, hn2⟩ := ihBs _ _ _ _ _ _ hlvl hbs
            refine ⟨hst2, fun hnone q hq => ?_⟩
            rcases List.mem_append.mp hq with hq | hq
            · exact hn1 hnone q hq
            · exact hn2 hnone q hq
    · intro e numId pStyle lvl st ps st' hlvl h
      simp only [convertLi] at h
      by_cases hA : elementTag e ≠ "li"
      · simp [hA] at h
      · simp only [hA, if_false] at h
        by_cases hB : liTailOk e
        · simp only [hB, not_true, if_false, Bool.not_true,
            Bool.false_eq_true, if_false] at h
          cases hcl : contentOfLi e ({} : Attrs) with
          | error s => rw [hcl] at h; cases h
          | ok pr =>
            obtain ⟨runs, blocks⟩ := pr
            rw [hcl] at h
            simp only [] at h
            cases hbs : convertBlocks fuel blocks numId lvl st with
            | error s => rw [hbs] at h; simp at h
            | ok pr2 =>
              obtain ⟨ps1, st1⟩ := pr2
              rw [hbs] at h
              simp only [] at h
              cases h
              obtain ⟨hst1, hn1⟩ := ihBs _ _ _ _ _ _ hlvl hbs
              refine ⟨hst1, fun hnone q hq => ?_⟩
              rcases List.mem_cons.mp hq with hq | hq
              · subst hq
                simpa using hnone
              · exact hn1 hnone q hq
        · simp [hB] at h
    · intro es numId pStyle lvl st ps st' hlvl h
      cases es with
      | nil =>
        simp only [convertLis] at h
        cases h
        exact ⟨rfl, by simp⟩
      | cons e rest =>
        simp only [convertLis] at h
        cases hli : convertLi fuel e numId pStyle lvl st with
        | error s => rw [hli] at h; cases h
        | ok pr =>
          obtain ⟨ps1, st1⟩ := pr
          rw [hli] at h
          simp only [] at h
          cases hlis : convertLis fuel rest numId pStyle lvl st1 with
          | error s => rw [hlis] at h; simp at h
          | ok pr2 =>
            obtain ⟨ps2, st2⟩ := pr2
            rw [hlis] at h
            simp only [] at h
            cases h
            obtain ⟨hst1, hn1⟩ := ihLi _ _ _ _ _ _ _ hlvl hli
            subst hst1
            obtain ⟨hst2, hn2⟩ := ihLis _ _ _ _ _ _ _ hlvl hlis
            refine ⟨hst2, fun hnone q hq => ?_⟩
            rcases List.mem_append.mp hq with hq | hq
            · exact hn1 hnone q hq
            · exact hn2 hnone q hq

/-- Claim C10: converting a blockquote at nesting level 0 records no
NumberingPair (the allocator state, counters and recorded pairs alike, is
unchanged) and every paragraph produced inside it — in particular every
item paragraph of a list nested in the blockquote — carries no numbering
id, hence is serialized without a numbering reference. -/
theorem c10_blockquote_lists_unnumbered (fuel : Nat) (e : Elem)
    (st : AllocState) (ps : List Paragraph) (st' : AllocState)
    (htag : elementTag e = "blockquote")
    (h : convertBlock fuel e none 0 st = .ok (ps, st')) :
    st' = st ∧ st'.numPairs = st.numPairs ∧
    ∀ p ∈ ps, p.numId = none ∧ paraHasNumPr p = false := by
  cases fuel with
  | zero => simp [convertBlock] at h
  | succ fuel =>
    simp only [convertBlock] at h
    by_cases htl : tailBad e
    · simp [htl] at h
    · simp [htl, htag] at h
      obtain ⟨hst, hn⟩ := (levelPos fuel).2.1 _ _ _ _ _ _ (by omega) h
      subst hst
      refine ⟨rfl, rfl, fun p hp => ?_⟩
      have := hn rfl p hp
      exact ⟨this, by simp [paraHasNumPr, this]⟩

/-- Witness for c10_blockquote_lists_unnumbered on a blockquote containing
an unordered list with one item. -/
theorem c10_blockquote_lists_unnumbered_witness :
    elementTag (.mk (nsBrace ++ "blockquote") none
      [.mk (nsBrace ++ "ul") none
        [.mk (nsBrace ++ "li") (some "a") [] none] none] none) =
      "blockquote" ∧
    convertBlock 6
      (.mk (nsBrace ++ "blockquote") none
        [.mk (nsBrace ++ "ul") none
          [.mk (nsBrace ++ "li") (some "a") [] none] none] none)
      none 0 { nextNumId := 9, nextAbstractNumId := 40, numPairs := [] } =
      .ok ([{ runs := [{ text := "a" }], pStyle := some "BulletNotlast",
              numId := none, ilvl := some 1 }],
           { nextNumId := 9, nextAbstractNumId := 40, numPairs := [] }) ∧
    ∀ p ∈ [({ runs := [{ text := "a" }], pStyle := some "BulletNotlast",
              numId := none, ilvl := some 1 } : Paragraph)],
      p.numId = none ∧ paraHasNumPr p = false := by
  have happ := c10_blockquote_lists_unnumbered 6
    (.mk (nsBrace ++ "blockquote") none
      [.mk (nsBrace ++ "ul") none
        [.mk (nsBrace ++ "li") (some "a") [] none] none] none)
    { nextNumId := 9, nextAbstractNumId := 40, numPairs := [] }
    [{ runs := [{ text := "a" }], pStyle := some "BulletNotlast",
       numId := none, ilvl := some 1 }]
    { nextNumId := 9, nextAbstractNumId := 40, numPairs := [] }
    (by simp) rfl
  exact ⟨by simp, rfl, happ.2.2⟩

/-- Characterization of one top-level block's effect on the allocator
state: only a top-level list allocates — an unordered list appends
(nextNumId, 24) advancing only the numbering counter, an ordered list
appends (nextNumId, nextAbstractNumId) advancing both counters; every
other recognized block leaves the state untouched. -/
theorem convertBlock_level0_state (fuel : Nat) (e : Elem) (numId : Option Nat)
    (st : AllocState) (ps : List Paragraph) (st' : AllocState)
    (h : convertBlock fuel e numId 0 st = .ok (ps, st')) :
    st' =
      if elementTag e = "ul" then
        { nextNumId := st.nextNumId + 1
          nextAbstractNumId := st.nextAbstractNumId
          numPairs := st.numPairs ++ [(st.nextNumId, 24)] }
      else if elementTag e = "ol" then
        { nextNumId := st.nextNumId + 1
          nextAbstractNumId := st.nextAbstractNumId + 1
          numPairs := st.numPairs ++ [(st.nextNumId, st.nextAbstractNumId)] }
      else st := by
  cases fuel with
  | zero => simp [convertBlock] at h
  | succ fuel =>
    simp only [convertBlock] at h
    by_cases htl : tailBad e
    · simp [htl] at h
    · simp only [htl, Bool.false_eq_true, if_false] at h
      by_cases h1 : elementTag e = "p"
      · simp only [h1, if_true] at h
        simp [h1]
        split at h
        · cases h
        · cases h; rfl
      · simp only [h1, if_false] at h
        by_cases h2 : elementTag e = "h1" ∨ elementTag e = "h2" ∨
            elementTag e = "h3" ∨ elementTag e = "h4" ∨
            elementTag e = "h5" ∨ elementTag e = "h6"
        · have hu : ¬ elementTag e = "ul" := by
            rcases h2 with h2 | h2 | h2 | h2 | h2 | h2 <;> simp [h2]
          have ho : ¬ elementTag e = "ol" := by
            rcases h2 with h2 | h2 | h2 | h2 | h2 | h2 <;> simp [h2]
          simp only [h2, if_true] at h
          simp only [hu, ho, if_false]
          split at h
          · cases h
          · cases h; rfl
        · simp only [h2, if_false] at h
          by_cases h3 : elementTag e = "ul" ∨ elementTag e = "ol"
          · simp only [h3, if_true, if_pos rfl] at h
            have hst := ((levelPos fuel).2.2.2 _ _ _ _ _ _ _ (by omega) h).1
            rcases h3 with h3 | h3
            · simp only [h3, if_true] at hst ⊢
              simpa using hst
            · have hu : ¬ elementTag e = "ul" := by simp [h3]
              simp only [h3, hu, if_true, if_false] at hst ⊢
              simpa using hst
          · simp only [h3, if_false] at h
            have hu : ¬ elementTag e = "ul" := fun hc => h3 (Or.inl hc)
            have ho : ¬ elementTag e = "ol" := fun hc => h3 (Or.inr hc)
            simp only [hu, ho, if_false]
            by_cases h4 : elementTag e = "blockquote"
            · simp only [h4, if_true] at h
              simp at h
              exact ((levelPos fuel).2.1 _ _ _ _ _ _ (by omega) h).1
            · simp only [h4, if_false] at h
              by_cases h5 : elementTag e = "pre"
              · simp only [h5, if_true] at h
                split at h
                · cases h
                · cases h; rfl
              · simp only [h5, if_false] at h
                by_cases h6 : elementTag e = "hr"
                · simp only [h6, if_true] at h
                  cases h; rfl
                · simp [h6] at h

/-! ### Numbering allocation at the top level (Claim C3) -/

/-- Tags of the top-level lists: cons unfolding. -/
theorem topListTags_cons (e : Elem) (rest : List Elem) :
    topListTags (e :: rest) =
      if elementTag e = "ul" ∨ elementTag e = "ol" then
        elementTag e :: topListTags rest
      else topListTags rest := by
  by_cases h : elementTag e = "ul" ∨ elementTag e = "ol" <;>
    simp [topListTags, List.filter_cons, h]

theorem topListTags_mem (es : List Elem) :
    ∀ t ∈ topListTags es, t = "ul" ∨ t = "ol" := by
  intro t ht
  simp only [topListTags, List.mem_map] at ht
  obtain ⟨e, he, rfl⟩ := ht
  have := List.of_mem_filter he
  simpa using this

theorem specAllocs_length (ts : List String) (n a : Nat) :
    (specAllocs ts n a).length = ts.length := by
  induction ts generalizing n a with
  | nil => rfl
  | cons t ts ih => by_cases h : t = "ul" <;> simp [specAllocs, h, ih]

theorem specAllocs_map_fst (ts : List String) (n a : Nat) :
    (specAllocs ts n a).map Prod.fst = List.range' n ts.length := by
  induction ts generalizing n a with
  | nil => rfl
  | cons t ts ih =>
    by_cases h : t = "ul" <;>
      simp [specAllocs, h, ih, List.range'_succ]

theorem specAllocs_ul_24 (ts : List String) (n a : Nat) :
    ∀ pr ∈ ts.zip (specAllocs ts n a), pr.1 = "ul" → pr.2.2 = 24 := by
  induction ts generalizing n a with
  | nil => simp
  | cons t ts ih =>
    by_cases h : t = "ul"
    · simp only [specAllocs, h, if_true, List.zip_cons_cons, List.mem_cons]
      rintro pr (rfl | hpr)
      · intro _; rfl
      · exact ih (n + 1) a pr hpr
    · simp only [specAllocs, h, if_false, List.zip_cons_cons, List.mem_cons]
      rintro pr (rfl | hpr)
      · intro hc; exact absurd hc h
      · exact ih (n + 1) (a + 1) pr hpr

theorem specAllocs_ol_minted (ts : List String) (n a : Nat)
    (hall : ∀ t ∈ ts, t = "ul" ∨ t = "ol") :
    (ts.zip (specAllocs ts n a)).filterMap
        (fun pr => if pr.1 = "ol" then some pr.2.2 else none) =
      List.range' a (ts.countP (fun t => t = "ol")) := by
  induction ts generalizing n a with
  | nil => simp
  | cons t ts ih =>
    have hall' : ∀ u ∈ ts, u = "ul" ∨ u = "ol" := fun u hu => hall u (by simp [hu])
    by_cases h : t = "ul"
    · have hno : ¬ t = "ol" := by simp [h]
      simp [specAllocs, h, List.zip_cons_cons, List.filterMap_cons, hno,
        List.countP_cons, ih (n + 1) a hall']
    · have hol : t = "ol" := (hall t (by simp)).resolve_left h
      simp [specAllocs, h, hol, List.zip_cons_cons, List.filterMap_cons,
        List.countP_cons, ih (n + 1) (a + 1) hall', List.range'_succ]

theorem convertBlocks_level0 (es : List Elem) : ∀ (fuel : Nat)
    (numId : Option Nat) (st : AllocState) (ps : List Paragraph)
    (st' : AllocState),
    convertBlocks fuel es numId 0 st = .ok (ps, st') →
    st'.numPairs = st.numPairs ++
        specAllocs (topListTags es) st.nextNumId st.nextAbstractNumId ∧
    st'.nextNumId = st.nextNumId + (topListTags es).length ∧
    st'.nextAbstractNumId = st.nextAbstractNumId +
        (topListTags es).countP (fun t => t = "ol") := by
  induction es with
  | nil =>
    intro fuel numId st ps st' h
    cases fuel with
    | zero => simp [convertBlocks] at h
    | succ fuel =>
      simp only [convertBlocks] at h
      cases h
      simp [topListTags, specAllocs]
  | cons e rest ih =>
    intro fuel numId st ps st' h
    cases fuel with
    | zero => simp [convertBlocks] at h
    | succ fuel =>
      simp only [convertBlocks] at h
      cases hb : convertBlock fuel e numId 0 st with
      | error s => rw [hb] at h; cases h
      | ok pr =>
        obtain ⟨ps1, st1⟩ := pr
        rw [hb] at h
        simp only [] at h
        cases hbs : convertBlocks fuel rest numId 0 st1 with
        | error s => rw [hbs] at h; simp at h
        | ok pr2 =>
          obtain ⟨ps2, st2⟩ := pr2
          rw [hbs] at h
          simp only [] at h
          cases h
          have hst1 := convertBlock_level0_state fuel e numId st ps1 st1 hb
          obtain ⟨hp, hn, ha⟩ := ih fuel numId st1 ps2 st' hbs
          rw [topListTags_cons]
          by_cases hul : elementTag e = "ul"
          · simp only [hul, if_true, eq_self_iff_true, true_or] at hst1 ⊢
            subst hst1
            refine ⟨?_, ?_, ?_⟩
            · rw [hp]
              simp [specAllocs, List.append_assoc]
            · rw [hn]
              simp [specAllocs_length]
              omega
            · rw [ha]
              simp [List.countP_cons]
          · by_cases hol : elementTag e = "ol"
            · simp only [hol, hul, if_false, if_true, eq_self_iff_true,
                or_true] at hst1 ⊢
              subst hst1
              refine ⟨?_, ?_, ?_⟩
              · rw [hp]
                simp [specAllocs, hul, List.append_assoc]
              · rw [hn]
                simp [specAllocs_length]
                omega
              · rw [ha]
                simp [List.countP_cons]
                omega
            · have hno : ¬ (elementTag e = "ul" ∨ elementTag e = "ol") := by
                simp [hul, hol]
              simp only [hul, hol, hno, if_false] at hst1 ⊢
              subst hst1
              exact ⟨hp, hn, ha⟩


theorem c3_numbering_allocation (fuel : Nat) (es : List Elem)
    (st : AllocState) (ps : List Paragraph) (st' : AllocState)
    (h : convertBody fuel es st = .ok (ps, st'))
    (hseed : st.numPairs = []) :
    st'.numPairs = specAllocs (topListTags es) st.nextNumId st.nextAbstractNumId ∧
    st'.nextNumId = st.nextNumId + (topListTags es).length ∧
    st'.nextAbstractNumId = st.nextAbstractNumId +
        (topListTags es).countP (fun t => t = "ol") ∧
    st'.numPairs.map Prod.fst = List.range' st.nextNumId (topListTags es).length ∧
    st'.numPairs.Pairwise (fun p q => p.1 < q.1) ∧
    (∀ pr ∈ (topListTags es).zip st'.numPairs, pr.1 = "ul" → pr.2.2 = 24) ∧
    ((topListTags es).zip st'.numPairs).filterMap
        (fun pr => if pr.1 = "ol" then some pr.2.2 else none) =
      List.range' st.nextAbstractNumId
        ((topListTags es).countP (fun t => t = "ol")) := by
  obtain ⟨hp, hn, ha⟩ := convertBlocks_level0 es fuel none st ps st' h
  rw [hseed, List.nil_append] at hp
  have hfst : st'.numPairs.map Prod.fst =
      List.range' st.nextNumId (topListTags es).length := by
    rw [hp, specAllocs_map_fst]
  refine ⟨hp, hn, ha, hfst, ?_, ?_, ?_⟩
  · have h1 : (st'.numPairs.map Prod.fst).Pairwise (· < ·) := by
      rw [hfst]
      simpa using List.pairwise_lt_range' st.nextNumId (topListTags es).length 1
    exact List.pairwise_map.mp h1
  · rw [hp]
    exact specAllocs_ul_24 _ _ _
  · rw [hp]
    exact specAllocs_ol_minted _ _ _ (topListTags_mem es)

theorem c3_numbering_allocation_witness :
    convertBody 20
      [.mk (nsBrace ++ "ul") none
        [.mk (nsBrace ++ "li") (some "a") [] none] none,
       .mk (nsBrace ++ "p") (some "t") [] none,
       .mk (nsBrace ++ "ol") none
        [.mk (nsBrace ++ "li") (some "b") [] none] none,
       .mk (nsBrace ++ "ol") none
        [.mk (nsBrace ++ "li") (some "c") [] none] none]
      { nextNumId := 10, nextAbstractNumId := 30, numPairs := [] } =
      .ok ([{ runs := [{ text := "a" }], pStyle := some "BulletNotlast",
              numId := some 10, ilvl := some 0 },
            { runs := [{ text := "t" }] },
            { runs := [{ text := "b" }], pStyle := some "Alg4",
              numId := some 11, ilvl := some 0 },
            { runs := [{ text := "c" }], pStyle := some "Alg4",
              numId := some 12, ilvl := some 0 }],
           { nextNumId := 13, nextAbstractNumId := 32,
             numPairs := [(10, 24), (11, 30), (12, 31)] }) ∧
    ([(10, 24), (11, 30), (12, 31)] : List (Nat × Nat)) =
      specAllocs ["ul", "ol", "ol"] 10 30 ∧
    List.Pairwise (fun p q => p.1 < q.1)
      ([(10, 24), (11, 30), (12, 31)] : List (Nat × Nat)) := by
  have happ := c3_numbering_allocation 20
    [.mk (nsBrace ++ "ul") none
      [.mk (nsBrace ++ "li") (some "a") [] none] none,
     .mk (nsBrace ++ "p") (some "t") [] none,
     .mk (nsBrace ++ "ol") none
      [.mk (nsBrace ++ "li") (some "b") [] none] none,
     .mk (nsBrace ++ "ol") none
      [.mk (nsBrace ++ "li") (some "c") [] none] none]
    { nextNumId := 10, nextAbstractNumId := 30, numPairs := [] }
    [{ runs := [{ text := "a" }], pStyle := some "BulletNotlast",
       numId := some 10, ilvl := some 0 },
     { runs := [{ text := "t" }] },
     { runs := [{ text := "b" }], pStyle := some "Alg4",
       numId := some 11, ilvl := some 0 },
     { runs := [{ text := "c" }], pStyle := some "Alg4",
       numId := some 12, ilvl := some 0 }]
    { nextNumId := 13, nextAbstractNumId := 32,
      numPairs := [(10, 24), (11, 30), (12, 31)] }
    rfl rfl
  exact ⟨rfl, rfl, happ.2.2.2.2.1⟩

end Render
